import Mathlib

/-!
Verification of the whatsapp-cli API layer (package `internal/api`).

Go strings are modelled as `List Char`; Go slices as `List`, except where
the nil / empty-but-present distinction matters, where `Option (List α)`
is used (`none` = nil slice). Each definition is a direct translation of
the Go function it is named after.
-/

namespace WhatsappCli

/-- The group-JID domain marker "@g.us" (source: `filter.go`, `IsAllowed`). -/
def gUSMarker : List Char := "@g.us".data

/-- The default direct-chat domain "@s.whatsapp.net" appended by
`handleSendMessage` when the recipient contains no "@". -/
def sWhatsappNet : List Char := "@s.whatsapp.net".data

/-- `PhoneFilter` from `filter.go`: whitelist/blacklist of phone entries. -/
structure PhoneFilter where
  whitelist : List (List Char)
  blacklist : List (List Char)
deriving DecidableEq, Repr

/-- `extractSuffix` from `filter.go`: the phone portion is everything before
the first "@" (`strings.Index` + slice; the whole string when no "@"); when
longer than 6 characters the last 6 are kept (`phone[len(phone)-6:]`). -/
def extractSuffix (jid : List Char) : List Char :=
  let phone := jid.takeWhile (fun c => c ≠ '@')
  if phone.length > 6 then phone.drop (phone.length - 6) else phone

/-- The entry-side truncation idiom repeated inside `matchesAny` and
`JIDSuffixes` in `filter.go`: `if len(entry) > 6 { entry[len(entry)-6:] }`.
Note it is applied to the whole entry, with no "@"-stripping. -/
def lastSix (entry : List Char) : List Char :=
  if entry.length > 6 then entry.drop (entry.length - 6) else entry

/-- `matchesAny` from `filter.go`: the loop returns true as soon as the given
suffix equals an entry reduced to its last 6 characters. -/
def matchesAny (suffix : List Char) (entries : List (List Char)) : Bool :=
  entries.any (fun entry => suffix == lastSix entry)

/-- `PhoneFilter.IsAllowed` from `filter.go`. -/
def IsAllowed (f : PhoneFilter) (jid : List Char) : Bool :=
  if gUSMarker.isSuffixOf jid then
    true
  else
    let suffix := extractSuffix jid
    if f.whitelist.length > 0 then
      matchesAny suffix f.whitelist
    else if f.blacklist.length > 0 then
      !matchesAny suffix f.blacklist
    else
      true

/-- Go `append` on a possibly-nil slice: appending to nil allocates a fresh
non-nil slice, so the result is nil only when nothing was ever appended. -/
def appendGo {α : Type} (s : Option (List α)) (x : α) : Option (List α) :=
  match s with
  | none => some [x]
  | some l => some (l ++ [x])

/-- `PhoneFilter.JIDSuffixes` from `filter.go`: each whitelist entry yields
`entry-last-6 + "@"` appended into `includeJIDs` (starting from the nil
slice), each blacklist entry likewise into `excludeJIDs`. -/
def JIDSuffixes (f : PhoneFilter) :
    Option (List (List Char)) × Option (List (List Char)) :=
  (f.whitelist.foldl (fun acc entry => appendGo acc (lastSix entry ++ ['@'])) none,
   f.blacklist.foldl (fun acc entry => appendGo acc (lastSix entry ++ ['@'])) none)

/-- Accumulator form of the `JIDSuffixes` fold. -/
theorem foldl_appendGo_some (g : List Char → List Char) :
    ∀ (l : List (List Char)) (acc : List (List Char)),
      l.foldl (fun acc e => appendGo acc (g e)) (some acc) = some (acc ++ l.map g) := by
  intro l
  induction l with
  | nil => intro acc; simp
  | cons e t ih =>
    intro acc
    have h1 : appendGo (some acc) (g e) = some (acc ++ [g e]) := rfl
    rw [List.foldl_cons, h1, ih]
    simp

/-- A Go-style append loop started from the nil slice yields nil exactly for
the empty input list. -/
theorem foldl_appendGo_none (g : List Char → List Char) (l : List (List Char)) :
    l.foldl (fun acc e => appendGo acc (g e)) none
      = if l = [] then none else some (l.map g) := by
  cases l with
  | nil => rfl
  | cons e t =>
    have h1 : appendGo none (g e) = some [g e] := rfl
    rw [List.foldl_cons, h1, foldl_appendGo_some]
    simp

/-- C1 counterexample: the non-group address `"765432@y"` and the whitelist
entry `"98765432@x"` have equal suffixes under the spec's suffix function
(`extractSuffix` both sides gives `"765432"`), so the claim as stated makes
the address allowed; `IsAllowed` nevertheless rejects it, because the entry
side is truncated whole (`lastSix` gives `"5432@x"`), not suffix-stripped. -/
theorem c1_counterexample :
    gUSMarker.isSuffixOf "765432@y".data = false ∧
    extractSuffix "765432@y".data = extractSuffix "98765432@x".data ∧
    IsAllowed ⟨["98765432@x".data], []⟩ "765432@y".data = false := by
  decide

/-- C1 amended: `IsAllowed` is decided by, in order: the group-domain marker
(always allowed), the non-empty whitelist (allowed iff the JID's extracted
suffix equals some entry's last-6-character whole-entry truncation — equal to
the entry's suffix when the entry contains no domain marker; the blacklist is
ignored), the non-empty blacklist (allowed iff the suffix equals no entry's
truncation), and otherwise always allowed. -/
theorem c1_IsAllowed_cases (wl bl : List (List Char)) (jid : List Char) :
    IsAllowed ⟨wl, bl⟩ jid = true ↔
      (if gUSMarker.isSuffixOf jid then True
       else if wl ≠ [] then ∃ e ∈ wl, extractSuffix jid = lastSix e
       else if bl ≠ [] then ∀ e ∈ bl, extractSuffix jid ≠ lastSix e
       else True) := by
  by_cases hg : gUSMarker.isSuffixOf jid = true
  · simp [IsAllowed, hg]
  · cases wl with
    | cons w ws =>
      simp [IsAllowed, hg, matchesAny, List.any_eq_true, beq_iff_eq]
    | nil =>
      cases bl with
      | cons b bs =>
        simp [IsAllowed, hg, matchesAny, beq_iff_eq]
      | nil => simp [IsAllowed, hg]

/-- C1 witness at concrete inputs: with whitelist `["1234567890"]` the JID
`"44234567890@s.whatsapp.net"` is allowed (same last 6 digits). -/
theorem c1_IsAllowed_cases_witness :
    IsAllowed ⟨["1234567890".data], []⟩ "44234567890@s.whatsapp.net".data = true ↔
      (if gUSMarker.isSuffixOf "44234567890@s.whatsapp.net".data then True
       else if (["1234567890".data] : List (List Char)) ≠ [] then
         ∃ e ∈ ["1234567890".data],
           extractSuffix "44234567890@s.whatsapp.net".data = lastSix e
       else if ([] : List (List Char)) ≠ [] then
         ∀ e ∈ ([] : List (List Char)),
           extractSuffix "44234567890@s.whatsapp.net".data ≠ lastSix e
       else True) :=
  c1_IsAllowed_cases ["1234567890".data] [] "44234567890@s.whatsapp.net".data

/-- C2 counterexample: the entry `"12345678@x"` is truncated to its last 6
characters `"5678@x"` without first stripping at "@", while the candidate
transform `extractSuffix` would give `"345678"`; consequently the candidate
`"345678@y"`, whose `extractSuffix` coincides with the entry's, is rejected
by a whitelist holding that entry. -/
theorem c2_counterexample :
    extractSuffix "345678@y".data = extractSuffix "12345678@x".data ∧
    lastSix "12345678@x".data ≠ extractSuffix "12345678@x".data ∧
    IsAllowed ⟨["12345678@x".data], []⟩ "345678@y".data = false := by
  decide

/-- C2 amended: `extractSuffix` strips the candidate at the first "@" and then
keeps the last 6 characters when longer; filter-list entries are instead
truncated whole by `lastSix` (no "@"-stripping), which agrees with
`extractSuffix` on entries containing no "@"; the comparison performed is
`extractSuffix address = lastSix entry`. -/
theorem c2_suffix_transform_amended :
    (∀ jid : List Char,
       extractSuffix jid = lastSix (jid.takeWhile (fun c => c ≠ '@'))) ∧
    (∀ entry : List Char, '@' ∉ entry → lastSix entry = extractSuffix entry) ∧
    (∀ (s : List Char) (entries : List (List Char)),
       matchesAny s entries = true ↔ ∃ e ∈ entries, s = lastSix e) := by
  refine ⟨fun jid => rfl, ?_, ?_⟩
  · intro entry h
    have ht : entry.takeWhile (fun c => c ≠ '@') = entry := by
      rw [List.takeWhile_eq_self_iff]
      intro a ha
      simp only [ne_eq, decide_eq_true_eq]
      intro h'
      exact h (h' ▸ ha)
    show lastSix entry = lastSix (entry.takeWhile (fun c => c ≠ '@'))
    rw [ht]
  · intro s entries
    simp [matchesAny, List.any_eq_true, beq_iff_eq]

/-- C3 counterexample: for whitelist `["12345678@x"]`, `JIDSuffixes` emits
`"5678@x" + "@"` (last 6 characters of the whole entry), not
`extractSuffix(entry) + "@"` = `"345678@"` as the claim states. -/
theorem c3_counterexample :
    JIDSuffixes ⟨["12345678@x".data], []⟩ = (some ["5678@x@".data], none) ∧
    extractSuffix "12345678@x".data ++ ['@'] = "345678@".data ∧
    "5678@x@".data ≠ "345678@".data := by
  decide

/-- C3 amended: `JIDSuffixes` maps each whitelist entry to
`lastSix entry + "@"` in the include set and each blacklist entry likewise
into the exclude set (agreeing with `extractSuffix entry + "@"` for entries
without "@"); an empty list yields the absent (nil) set, never an
empty-but-present one. -/
theorem c3_JIDSuffixes_amended (f : PhoneFilter) :
    JIDSuffixes f =
      ((if f.whitelist = [] then none
        else some (f.whitelist.map (fun e => lastSix e ++ ['@']))),
       (if f.blacklist = [] then none
        else some (f.blacklist.map (fun e => lastSix e ++ ['@'])))) := by
  unfold JIDSuffixes
  rw [foldl_appendGo_none, foldl_appendGo_none]

/-- `Server.handleReadyz` from `server.go` as a function of the two coordinator
flags; result: (HTTP status code, status field, optional reason field). -/
def handleReadyz (authenticated syncing : Bool) : Nat × String × Option String :=
  if authenticated && syncing then
    (200, "ready", none)
  else
    (503, "not_ready",
      some (if authenticated then "not syncing" else "not authenticated"))

/-- Observable outcome of `Server.handleSendMessage`: 400 on a missing field,
403 when the phone filter rejects, or an invocation of `App.SendMessage`
carrying the recipient and message it receives. -/
inductive SendOutcome where
  | badRequest
  | forbidden
  | sent (recipient message : List Char)
deriving DecidableEq, Repr

/-- `Server.handleSendMessage` (handlers file): empty `to` or `message` is a
400; otherwise "@s.whatsapp.net" is appended to a recipient without "@"
(`strings.Contains`), the filter is consulted on that normalized value, and on
success `App.SendMessage` receives the original `req.To` and `req.Message`.
The JSON-decode failure branch (also a 400) is outside this pure model. -/
def handleSendMessage (f : PhoneFilter) (toAddr msg : List Char) : SendOutcome :=
  if toAddr = [] ∨ msg = [] then
    SendOutcome.badRequest
  else
    let recipient := if toAddr.contains '@' then toAddr else toAddr ++ sWhatsappNet
    if !(IsAllowed f recipient) then
      SendOutcome.forbidden
    else
      SendOutcome.sent toAddr msg

/-- Digit-run parser underlying the model of Go `strconv.Atoi`: all characters
must be decimal digits and at least one must be present. -/
def parseDigits (cs : List Char) : Option Nat :=
  if cs = [] then none
  else if cs.all (fun c => c.isDigit) then
    some (cs.foldl (fun acc c => acc * 10 + (c.toNat - 48)) 0)
  else none

/-- Modelled from Go's `strconv.Atoi` (the only library call inside
`parseIntParam`): optional single leading sign, then a non-empty digit run;
values outside the signed 64-bit range are errors (`ErrRange`). `none` stands
for a non-nil `err`. -/
def goAtoi (s : String) : Option Int :=
  match s.data with
  | [] => none
  | '+' :: rest =>
    (parseDigits rest).bind
      (fun n => if (n : Int) ≤ 2 ^ 63 - 1 then some (n : Int) else none)
  | '-' :: rest =>
    (parseDigits rest).bind
      (fun n => if -(2 ^ 63) ≤ -(n : Int) then some (-(n : Int)) else none)
  | cs =>
    (parseDigits cs).bind
      (fun n => if (n : Int) ≤ 2 ^ 63 - 1 then some (n : Int) else none)

/-- `parseIntParam` (handlers file): the query value (`""` when the parameter
is missing), falling back to the default on empty value, parse error, or a
negative parse. -/
def parseIntParam (v : String) (defaultVal : Int) : Int :=
  if v = "" then defaultVal
  else
    match goAtoi v with
    | none => defaultVal
    | some n => if n < 0 then defaultVal else n

/-- The shared prologue of `handleListMessages`, `handleSearchMessages` and
`handleListChats`: parse `limit` (default 20) and `page` (default 0), then
clamp `limit` to `Config.MaxMessages` before the `App` query is invoked. -/
def effectiveLimitPage (limitStr pageStr : String) (maxMessages : Int) :
    Int × Int :=
  let limit := parseIntParam limitStr 20
  let page := parseIntParam pageStr 0
  ((if limit > maxMessages then maxMessages else limit), page)

/-- C4: readiness is reported (200, "ready") iff `authenticated` and `syncing`
are both true; otherwise (503, "not_ready") with reason "not authenticated"
when unauthenticated, and "not syncing" when authenticated but not syncing. -/
theorem c4_readyz_iff (a s : Bool) :
    (handleReadyz a s = (200, "ready", none) ↔ a = true ∧ s = true) ∧
    (a = false →
      handleReadyz a s = (503, "not_ready", some "not authenticated")) ∧
    (a = true → s = false →
      handleReadyz a s = (503, "not_ready", some "not syncing")) := by
  cases a <;> cases s <;> simp [handleReadyz]

/-- C5 counterexample: with whitelist `["111111"]` the request
(toAddr = "999999", message = "") has a recipient the filter rejects, yet the
handler returns the 400 validation outcome (empty message precedes the
permission check), not the 403 permission-denied outcome. -/
theorem c5_counterexample :
    IsAllowed ⟨["111111".data], []⟩ ("999999".data ++ sWhatsappNet) = false ∧
    handleSendMessage ⟨["111111".data], []⟩ "999999".data []
      = SendOutcome.badRequest ∧
    SendOutcome.badRequest ≠ SendOutcome.forbidden := by
  decide

/-- C5 amended: for every send request with non-empty `to` and `message`
fields whose normalized recipient the filter rejects, the handler returns the
permission-denied outcome and `App.SendMessage` is never invoked. (Requests
with an empty field fail validation first, as the counterexample shows, and
likewise never reach `App.SendMessage`.) -/
theorem c5_permission_denied_amended (f : PhoneFilter) (toAddr msg : List Char)
    (hto : toAddr ≠ []) (hmsg : msg ≠ [])
    (hrej : IsAllowed f (if toAddr.contains '@' then toAddr else toAddr ++ sWhatsappNet)
              = false) :
    handleSendMessage f toAddr msg = SendOutcome.forbidden ∧
    ∀ r m, handleSendMessage f toAddr msg ≠ SendOutcome.sent r m := by
  have h : handleSendMessage f toAddr msg = SendOutcome.forbidden := by
    unfold handleSendMessage
    rw [if_neg (by simp [hto, hmsg])]
    show (if !(IsAllowed f
            (if toAddr.contains '@' then toAddr else toAddr ++ sWhatsappNet)) then
          SendOutcome.forbidden
        else SendOutcome.sent toAddr msg) = SendOutcome.forbidden
    rw [hrej]
    rfl
  exact ⟨h, fun r m => by rw [h]; intro hc; cases hc⟩

/-- C5 witness at concrete inputs: whitelist `["111111"]`, toAddr = "999999",
message = "hi". -/
theorem c5_permission_denied_amended_witness :
    handleSendMessage ⟨["111111".data], []⟩ "999999".data "hi".data
        = SendOutcome.forbidden ∧
    ∀ r m, handleSendMessage ⟨["111111".data], []⟩ "999999".data "hi".data
        ≠ SendOutcome.sent r m :=
  c5_permission_denied_amended ⟨["111111".data], []⟩ "999999".data "hi".data
    (by decide) (by decide) (by decide)

/-- C10: on a validated request the permission check is evaluated on the
recipient with "@s.whatsapp.net" appended when it contains no "@" (and on the
given value otherwise), while `App.SendMessage`, when permitted, receives the
original unmodified `to` value. -/
theorem c10_recipient_normalization (f : PhoneFilter) (toAddr msg : List Char)
    (hto : toAddr ≠ []) (hmsg : msg ≠ []) :
    handleSendMessage f toAddr msg =
      (if IsAllowed f (if toAddr.contains '@' then toAddr else toAddr ++ sWhatsappNet) then
        SendOutcome.sent toAddr msg
      else SendOutcome.forbidden) := by
  unfold handleSendMessage
  rw [if_neg (by simp [hto, hmsg])]
  show (if !(IsAllowed f
          (if toAddr.contains '@' then toAddr else toAddr ++ sWhatsappNet)) then
        SendOutcome.forbidden
      else SendOutcome.sent toAddr msg)
    = (if IsAllowed f
          (if toAddr.contains '@' then toAddr else toAddr ++ sWhatsappNet) then
        SendOutcome.sent toAddr msg
      else SendOutcome.forbidden)
  cases h : IsAllowed f
      (if toAddr.contains '@' then toAddr else toAddr ++ sWhatsappNet) <;> rfl

/-- C10 witness at concrete inputs: toAddr = "999999" (no "@") is checked with the
domain appended and forwarded unmodified. -/
theorem c10_recipient_normalization_witness :
    handleSendMessage ⟨[], []⟩ "999999".data "hi".data =
      (if IsAllowed ⟨[], []⟩
            (if "999999".data.contains '@' then "999999".data
             else "999999".data ++ sWhatsappNet) then
        SendOutcome.sent "999999".data "hi".data
      else SendOutcome.forbidden) :=
  c10_recipient_normalization ⟨[], []⟩ "999999".data "hi".data
    (by decide) (by decide)

/-- `parseIntParam` in terms of the parse result alone (`goAtoi "" = none`,
so the empty-value early return merges with the error case). -/
theorem parseIntParam_eq_match (v : String) (d : Int) :
    parseIntParam v d =
      match goAtoi v with
      | none => d
      | some n => if n < 0 then d else n := by
  unfold parseIntParam
  by_cases hv : v = ""
  · subst hv
    rfl
  · rw [if_neg hv]

/-- C9: a missing, non-integer, or negative `limit` is replaced by 20 and a
missing, non-integer, or negative `page` by 0; the resulting limit is reduced
to exactly `MaxMessages` when it exceeds it (valid limits not exceeding
`MaxMessages`, and all valid pages, pass through unchanged) before the query
operation is invoked. A missing parameter reads as `""`, on which `goAtoi`
errs. -/
theorem c9_limit_page_defaults (limitStr pageStr : String) (maxM : Int) :
    ((goAtoi limitStr = none ∨ (∃ z, goAtoi limitStr = some z ∧ z < 0)) →
        (effectiveLimitPage limitStr pageStr maxM).1
          = if 20 > maxM then maxM else 20) ∧
    (∀ z, goAtoi limitStr = some z → 0 ≤ z →
        (effectiveLimitPage limitStr pageStr maxM).1
          = if z > maxM then maxM else z) ∧
    ((goAtoi pageStr = none ∨ (∃ z, goAtoi pageStr = some z ∧ z < 0)) →
        (effectiveLimitPage limitStr pageStr maxM).2 = 0) ∧
    (∀ z, goAtoi pageStr = some z → 0 ≤ z →
        (effectiveLimitPage limitStr pageStr maxM).2 = z) := by
  unfold effectiveLimitPage
  refine ⟨?_, ?_, ?_, ?_⟩
  · intro h
    have hl : parseIntParam limitStr 20 = 20 := by
      rw [parseIntParam_eq_match]
      rcases h with h | ⟨z, hz, hneg⟩
      · rw [h]
      · rw [hz]
        simp [hneg]
    simp [hl]
  · intro z hz hnn
    have hl : parseIntParam limitStr 20 = z := by
      rw [parseIntParam_eq_match, hz]
      simp [not_lt.mpr hnn]
    simp [hl]
  · intro h
    have hp : parseIntParam pageStr 0 = 0 := by
      rw [parseIntParam_eq_match]
      rcases h with h | ⟨z, hz, hneg⟩
      · rw [h]
      · rw [hz]
        simp [hneg]
    simp [hp]
  · intro z hz hnn
    have hp : parseIntParam pageStr 0 = z := by
      rw [parseIntParam_eq_match, hz]
      simp [not_lt.mpr hnn]
    simp [hp]

/-- One iteration's reads inside the `StartBackgroundSync` goroutine: the
polled value of `Server.authenticated` and whether `ctx.Done()` is ready at
the subsequent `select`. -/
structure LoopObs where
  authenticated : Bool
  ctxDone : Bool
deriving DecidableEq, Repr

/-- Observable actions of the `StartBackgroundSync` goroutine: the atomic
writes to `syncRunning` / `syncing`, the invocation and return of the blocking
`App.Sync`, and each per-message callback (which increments
`messagesSynced`). -/
inductive SyncAct where
  | storeSyncRunning (b : Bool)
  | storeSyncing (b : Bool)
  | syncBegin
  | onMessage
  | syncEnd
deriving DecidableEq, Repr

/-- The action sequence of the sync phase of `StartBackgroundSync` when the
provider delivers `n` messages: `syncRunning.Store(true)`,
`SetSyncing(true)`, the blocking `App.Sync` call with its `n` callback
invocations, then the deferred `syncRunning.Store(false)`,
`SetSyncing(false)`. -/
def syncBody (n : Nat) : List SyncAct :=
  [SyncAct.storeSyncRunning true, SyncAct.storeSyncing true, SyncAct.syncBegin]
    ++ List.replicate n SyncAct.onMessage
    ++ [SyncAct.syncEnd, SyncAct.storeSyncRunning false,
        SyncAct.storeSyncing false]

/-- The goroutine body of `Server.StartBackgroundSync` (`server.go`): while
`authenticated` reads false, the `select` exits on `ctx.Done()` and otherwise
ticks to the next poll; once `authenticated` reads true the sync phase runs.
`obs` is the sequence of per-iteration reads, `n` the number of messages the
provider delivers; the result pairs the emitted actions with whether the
goroutine returned (`false` = still polling when `obs` ran out). -/
def StartBackgroundSync : List LoopObs → Nat → List SyncAct × Bool
  | [], _ => ([], false)
  | o :: rest, n =>
    if o.authenticated then (syncBody n, true)
    else if o.ctxDone then ([], true)
    else StartBackgroundSync rest n

/-- Effect of one action on the pair (`syncRunning`, `syncing`). -/
def applyAct (st : Bool × Bool) (a : SyncAct) : Bool × Bool :=
  match a with
  | SyncAct.storeSyncRunning b => (b, st.2)
  | SyncAct.storeSyncing b => (st.1, b)
  | _ => st

/-- The pair (`syncRunning`, `syncing`) after a trace, both starting false. -/
def flagsAfter (tr : List SyncAct) : Bool × Bool :=
  tr.foldl applyAct (false, false)

/-- The actions belonging to the `App.Sync` invocation itself. -/
def isSyncAct : SyncAct → Bool
  | SyncAct.syncBegin => true
  | SyncAct.onMessage => true
  | SyncAct.syncEnd => true
  | _ => false

/-- C6: if, after any number of polls that read `authenticated = false` and
found the context live, an iteration reads `authenticated = false` and a
ready `ctx.Done()`, the goroutine returns with an empty action trace: the
provider's Sync is never invoked and `syncing` / `syncRunning` are never
stored. -/
theorem c6_cancel_before_auth (pre : List LoopObs) (o : LoopObs)
    (post : List LoopObs) (n : Nat)
    (hpre : ∀ p ∈ pre, p.authenticated = false ∧ p.ctxDone = false)
    (hauth : o.authenticated = false) (hdone : o.ctxDone = true) :
    StartBackgroundSync (pre ++ o :: post) n = ([], true) := by
  induction pre with
  | nil => simp [StartBackgroundSync, hauth, hdone]
  | cons p ps ih =>
    have hp := hpre p (by simp)
    have h2 : StartBackgroundSync ((p :: ps) ++ o :: post) n
        = StartBackgroundSync (ps ++ o :: post) n := by
      show (if p.authenticated then (syncBody n, true)
            else if p.ctxDone then ([], true)
            else StartBackgroundSync (ps ++ o :: post) n)
          = StartBackgroundSync (ps ++ o :: post) n
      rw [hp.1, hp.2]
      rfl
    rw [h2]
    exact ih (fun q hq => hpre q (by simp [hq]))

/-- C6 witness: two live unauthenticated polls, then cancellation with
`authenticated` still false; the trace is empty and the goroutine returned. -/
theorem c6_cancel_before_auth_witness :
    StartBackgroundSync
      ([⟨false, false⟩, ⟨false, false⟩] ++ (⟨false, true⟩ : LoopObs) :: []) 5
      = ([], true) :=
  c6_cancel_before_auth [⟨false, false⟩, ⟨false, false⟩] ⟨false, true⟩ [] 5
    (by decide) (by decide) (by decide)

/-- A fold by `applyAct` over actions that are not flag stores leaves the
flag state unchanged. -/
theorem foldl_applyAct_of_sync (l : List SyncAct) (st : Bool × Bool)
    (h : ∀ a ∈ l, isSyncAct a = true) :
    l.foldl applyAct st = st := by
  induction l generalizing st with
  | nil => rfl
  | cons a t ih =>
    have ha := h a (by simp)
    have hst : applyAct st a = st := by
      cases a <;> simp [isSyncAct] at ha <;> rfl
    rw [List.foldl_cons, hst]
    exact ih st (fun b hb => h b (by simp [hb]))

/-- Splitting lemma: to show every decomposition of `x :: l` around an
`App.Sync` action has both flags true before it, handle the head and recurse
with the updated state. -/
theorem flagInv_cons (x : SyncAct) (l : List SyncAct) (st : Bool × Bool)
    (hx : isSyncAct x = true → st = (true, true))
    (hl : ∀ pre a post, l = pre ++ a :: post → isSyncAct a = true →
            pre.foldl applyAct (applyAct st x) = (true, true)) :
    ∀ pre a post, (x :: l) = pre ++ a :: post → isSyncAct a = true →
      pre.foldl applyAct st = (true, true) := by
  intro pre a post heq ha
  cases pre with
  | nil =>
    simp only [List.nil_append, List.cons.injEq] at heq
    exact hx (heq.1 ▸ ha)
  | cons q qs =>
    simp only [List.cons_append, List.cons.injEq] at heq
    rw [List.foldl_cons, ← heq.1]
    exact hl qs a post heq.2 ha

/-- No decomposition of the empty trace contains an action. -/
theorem flagInv_nil (st : Bool × Bool) :
    ∀ pre a post, ([] : List SyncAct) = pre ++ a :: post →
      isSyncAct a = true → pre.foldl applyAct st = (true, true) := by
  intro pre a post heq _
  exact absurd heq.symm (by simp)

/-- In the tail of `syncBody` after the two initial stores and with both
flags already true, every `App.Sync` action sits at a point where both flags
are still true. -/
theorem flagInv_msgs (n : Nat) :
    ∀ pre a post,
      (List.replicate n SyncAct.onMessage
        ++ [SyncAct.syncEnd, SyncAct.storeSyncRunning false,
            SyncAct.storeSyncing false]) = pre ++ a :: post →
      isSyncAct a = true → pre.foldl applyAct (true, true) = (true, true) := by
  induction n with
  | zero =>
    show ∀ pre a post,
        SyncAct.syncEnd :: [SyncAct.storeSyncRunning false,
          SyncAct.storeSyncing false] = pre ++ a :: post →
        isSyncAct a = true → pre.foldl applyAct (true, true) = (true, true)
    refine flagInv_cons _ _ _ (fun _ => rfl) ?_
    refine flagInv_cons _ _ _ (fun h => by simp [isSyncAct] at h) ?_
    refine flagInv_cons _ _ _ (fun h => by simp [isSyncAct] at h) ?_
    exact flagInv_nil _
  | succ m ih =>
    show ∀ pre a post,
        SyncAct.onMessage :: (List.replicate m SyncAct.onMessage
          ++ [SyncAct.syncEnd, SyncAct.storeSyncRunning false,
              SyncAct.storeSyncing false]) = pre ++ a :: post →
        isSyncAct a = true → pre.foldl applyAct (true, true) = (true, true)
    exact flagInv_cons _ _ _ (fun _ => rfl) ih

/-- Every `App.Sync` action inside `syncBody` occurs with both flags true. -/
theorem flagInv_syncBody (n : Nat) :
    ∀ pre a post, syncBody n = pre ++ a :: post → isSyncAct a = true →
      pre.foldl applyAct (false, false) = (true, true) := by
  show ∀ pre a post,
      SyncAct.storeSyncRunning true :: (SyncAct.storeSyncing true ::
        (SyncAct.syncBegin :: (List.replicate n SyncAct.onMessage
          ++ [SyncAct.syncEnd, SyncAct.storeSyncRunning false,
              SyncAct.storeSyncing false]))) = pre ++ a :: post →
      isSyncAct a = true → pre.foldl applyAct (false, false) = (true, true)
  refine flagInv_cons _ _ _ (fun h => by simp [isSyncAct] at h) ?_
  refine flagInv_cons _ _ _ (fun h => by simp [isSyncAct] at h) ?_
  refine flagInv_cons _ _ _ (fun _ => rfl) ?_
  exact flagInv_msgs n

/-- The trace of the goroutine is either empty or exactly one sync body. -/
theorem StartBackgroundSync_trace (obs : List LoopObs) (n : Nat) :
    (StartBackgroundSync obs n).1 = []
      ∨ (StartBackgroundSync obs n).1 = syncBody n := by
  induction obs with
  | nil => exact Or.inl rfl
  | cons o rest ih =>
    have hstep : StartBackgroundSync (o :: rest) n
        = (if o.authenticated then (syncBody n, true)
           else if o.ctxDone then ([], true)
           else StartBackgroundSync rest n) := rfl
    rw [hstep]
    cases ha : o.authenticated
    · cases hd : o.ctxDone
      · simpa using ih
      · simp
    · simp

/-- Both flags are false again after a full sync body. -/
theorem flagsAfter_syncBody (n : Nat) : flagsAfter (syncBody n) = (false, false) := by
  unfold flagsAfter syncBody
  rw [List.foldl_append, List.foldl_append]
  rw [foldl_applyAct_of_sync (List.replicate n SyncAct.onMessage)]
  · rfl
  · intro a ha
    rw [List.eq_of_mem_replicate ha]
    rfl

/-- Occurrence counts in `syncBody`: one sync invocation, `n` callbacks. -/
theorem syncBody_counts (n : Nat) :
    (syncBody n).count SyncAct.syncBegin = 1
      ∧ (syncBody n).count SyncAct.onMessage = n := by
  unfold syncBody
  constructor <;>
    simp [List.count_append, List.count_replicate, List.count_cons]

/-- C7: along every execution of the sync-supervision goroutine, the
provider's Sync is invoked at most once (no retry); whenever it is invoked —
and at its return and at each per-message callback — both `syncRunning` and
`syncing` read true, having been stored in that order before the invocation;
after the trace both flags are false again; and a non-empty trace contains
exactly one Sync invocation and exactly `n` `messagesSynced` increments. -/
theorem c7_sync_flags_lifecycle (obs : List LoopObs) (n : Nat) :
    ((StartBackgroundSync obs n).1.count SyncAct.syncBegin ≤ 1) ∧
    (∀ pre a post, (StartBackgroundSync obs n).1 = pre ++ a :: post →
        isSyncAct a = true → pre.foldl applyAct (false, false) = (true, true)) ∧
    (flagsAfter (StartBackgroundSync obs n).1 = (false, false)) ∧
    ((StartBackgroundSync obs n).1 ≠ [] →
        (StartBackgroundSync obs n).1.count SyncAct.syncBegin = 1 ∧
        (StartBackgroundSync obs n).1.count SyncAct.onMessage = n) := by
  rcases StartBackgroundSync_trace obs n with h | h <;> rw [h]
  · exact ⟨by simp, flagInv_nil _, rfl, fun hc => absurd rfl hc⟩
  · exact ⟨le_of_eq (syncBody_counts n).1, flagInv_syncBody n,
      flagsAfter_syncBody n, fun _ => syncBody_counts n⟩

/-- The coordinator state touched by QR authentication: the single-slot
current code (`atomic.Value`, nil before any store) and the `authenticated`
flag. -/
structure QRState where
  currentQR : Option String
  authenticated : Bool
deriving DecidableEq, Repr

/-- Server state at startup: no QR value ever stored, unauthenticated. -/
def initialQRState : QRState := ⟨none, false⟩

/-- `Server.SetCurrentQR`: overwrite the single slot. -/
def SetCurrentQR (s : QRState) (qr : String) : QRState :=
  { s with currentQR := some qr }

/-- `Server.SetAuthenticated`. -/
def SetAuthenticated (s : QRState) (v : Bool) : QRState :=
  { s with authenticated := v }

/-- `Server.GetCurrentQR`: the empty string when nothing was ever stored,
else the stored value. -/
def GetCurrentQR (s : QRState) : String :=
  match s.currentQR with
  | none => ""
  | some v => v

/-- The two callbacks `Server.StartQRAuth` registers with
`AuthWithQRCallback`. -/
inductive QREvent where
  | qr (code : String)
  | success
deriving DecidableEq, Repr

/-- Effect of a callback on the coordinator state (`server.go`,
`StartQRAuth`): the QR callback stores the newest code; the success callback
runs `SetAuthenticated(true)` then `SetCurrentQR("")`. -/
def applyQREvent (s : QRState) : QREvent → QRState
  | QREvent.qr code => SetCurrentQR s code
  | QREvent.success => SetCurrentQR (SetAuthenticated s true) ""

/-- C8: the current QR code is single-slot last-write-wins — after any
challenge callback the accessor returns exactly the newest code, whatever the
prior state; the success callback sets `authenticated` and clears the slot so
the accessor returns ""; the accessor returns "" on any state with no stored
code, in particular the initial one. -/
theorem c8_qr_slot_lifecycle :
    (∀ (s : QRState) (code : String),
        GetCurrentQR (applyQREvent s (QREvent.qr code)) = code) ∧
    (∀ s : QRState,
        (applyQREvent s QREvent.success).authenticated = true ∧
        GetCurrentQR (applyQREvent s QREvent.success) = "") ∧
    (∀ s : QRState, s.currentQR = none → GetCurrentQR s = "") ∧
    GetCurrentQR initialQRState = "" := by
  refine ⟨fun s code => rfl, fun s => ⟨rfl, rfl⟩, ?_, rfl⟩
  intro s h
  unfold GetCurrentQR
  rw [h]

end WhatsappCli
